import Mathlib

/-!
Verification development for the prpl-llm-utils repository.

The Python sources `cache.py`, `models.py`, `code.py` and `utils.py` are
embedded shallowly: file-system state is an explicit map from cache-entry
folder names to entries, fallible operations return `Except`, and the
external Python facilities (`ast.parse`, the remote LLM call) are
parameters.  The modules `structs.py` and `reprompting.py` are imported by
the sources but are not part of the source tree; the definitions taken
from them are modelled from the specification and are marked as such in
their doc comments.
-/

set_option autoImplicit false

namespace PrplLlmUtils

/-- Image contents are opaque to every operation modelled here; an image is
represented by its raw byte content as a string. -/
abbrev Img := String

/-- Metadata is a JSON-serializable mapping; it is modelled as an
association list from string keys to integer values (the sources only
store and reload it, so the exact value type is irrelevant). -/
abbrev Metadata := List (String × Int)

/-- Modelled from the spec: `structs.py` is missing from the source tree.
A Query is an immutable value holding prompt text, an optional ordered
sequence of image attachments, and an optional mapping of hyperparameter
name to hashable value (the values are modelled by their canonical string
form). -/
structure Query where
  prompt : String
  imgs : Option (List Img) := none
  hyperparameters : Option (List (String × String)) := none
deriving DecidableEq

/-- Modelled from the spec: `structs.py` is missing from the source tree.
A Response holds completion text (nullable: a model may return no text)
and a metadata mapping. -/
structure Response where
  text : Option String
  metadata : Metadata
deriving DecidableEq

/-! ### Query fingerprints

Modelled from the spec: `structs.py` (with `Query.get_id` and
`Query.get_readable_id`) is missing from the source tree.  The spec says a
Query has a fingerprint, "a stable, session-independent hash derived from
its canonical string representation", with the invariants that identical
fields give identical fingerprints and differing hyperparameters give
different fingerprints.  The hash is therefore modelled as an injective
encoding of the Query's fields into a natural number: each field is
serialized into a stream of tokens (characters shifted past a small set of
control tokens) and the stream is read as a number in a base larger than
any token. -/

/-- Token base: `2 ^ 21`, strictly larger than any token plus one. -/
def tokenBase : Nat := 2097152

/-- A character token: the code point shifted past the control tokens. -/
def charTok (c : Char) : Nat := c.toNat + 8

/-- Serialize a string: its character tokens followed by terminator 1. -/
def encStr (s : String) : List Nat := s.data.map charTok ++ [1]

/-- Serialize an optional value: control token 2 for `none`, 3 then the
payload for `some`. -/
def encOpt {α : Type} (f : α → List Nat) : Option α → List Nat
  | none => [2]
  | some x => 3 :: f x

/-- Serialize a list: control token 4 before every element, 5 at the end. -/
def encListTok {α : Type} (f : α → List Nat) : List α → List Nat
  | [] => [5]
  | x :: xs => 4 :: (f x ++ encListTok f xs)

/-- Serialize a pair by concatenating the two serializations. -/
def encPairTok {α β : Type} (f : α → List Nat) (g : β → List Nat) (p : α × β) : List Nat :=
  f p.1 ++ g p.2

/-- The token stream of a Query: prompt, then images, then
hyperparameters. -/
def queryTokens (q : Query) : List Nat :=
  encStr q.prompt
    ++ encOpt (encListTok encStr) q.imgs
    ++ encOpt (encListTok (encPairTok encStr encStr)) q.hyperparameters

/-- Read a token stream as a number in base `tokenBase` (little-endian,
each token shifted by one so that the empty stream is distinguishable). -/
def encTok : List Nat → Nat
  | [] => 0
  | t :: ts => (t + 1) + tokenBase * encTok ts

/-- Modelled from the spec: the fingerprint of a Query, a
session-independent number determined exactly by the Query's fields. -/
def fingerprint (q : Query) : Nat := encTok (queryTokens q)

/-- Hexadecimal rendering of a natural number, by fuelled division;
`fuel = n + 1` always suffices. -/
def natToHexAux : Nat → Nat → List Char → List Char
  | 0, _, ds => ds
  | fuel + 1, n, ds =>
    let d := Nat.digitChar (n % 16)
    let n2 := n / 16
    if n2 = 0 then d :: ds else natToHexAux fuel n2 (d :: ds)

/-- Hexadecimal rendering of a natural number as a string. -/
def natToHex (n : Nat) : String := ⟨natToHexAux (n + 1) n []⟩

/-- The truncated prompt excerpt used in the human-readable identifier. -/
def promptExcerpt (s : String) : String := ⟨s.data.take 32⟩

/-- Modelled from the spec: `structs.py` is missing from the source tree.
The human-readable Query identifier combines a truncated prompt excerpt
with the fingerprint. -/
def Query.get_readable_id (q : Query) : String :=
  promptExcerpt q.prompt ++ "_" ++ natToHex (fingerprint q)

/-- Modelled from the spec: `structs.py` is missing from the source tree.
`Query.get_id` is the identifier used by `models.py` when deriving the
per-query cache directory; the spec describes a single identifier concept,
so it is modelled as the same identifier as `get_readable_id`. -/
def Query.get_id (q : Query) : String := q.get_readable_id

/-! ### File-system model

A cache directory holds one folder per (model, query) key.  An `Entry`
records which of the per-entry files exist and their parsed contents:
`prompt.txt`, the `imgs/` folder, `completion.txt`, and `metadata.json`
(whose content may fail to parse as JSON, represented by `some none`). -/

/-- The on-disk state of one cache entry folder. -/
structure Entry where
  promptFile : Option String := none
  imgsDir : Option (List Img) := none
  completionFile : Option String := none
  metadataFile : Option (Option Metadata) := none
deriving DecidableEq

/-- A freshly created, empty entry folder. -/
def Entry.empty : Entry := {}

/-- The cache directory: a map from entry folder names to entries;
`none` means the folder does not exist. -/
abbrev CacheFS := String → Option Entry

/-- The entry stored under a folder name, defaulting to an empty folder. -/
def entryOf (fs : CacheFS) (k : String) : Entry := (fs k).getD Entry.empty

/-- `mkdir(exist_ok=True)`: create the folder if absent, keep it otherwise. -/
def mkdirEntry (fs : CacheFS) (k : String) : CacheFS :=
  fun k2 => if k2 = k then some (entryOf fs k) else fs k2

/-- Overwrite the entry stored under a folder name. -/
def setEntry (fs : CacheFS) (k : String) (e : Entry) : CacheFS :=
  fun k2 => if k2 = k then some e else fs k2

/-- The Python exceptions that the embedded operations can raise.
`responseNotFound` is `cache.ResponseNotFound`; `valueError` is the
`ValueError` raised by cache-only mode; `typeError` is the `TypeError`
raised when `None` is used where a string is required; `fileNotFoundError`
and `jsonDecodeError` arise when reading entry files. -/
inductive PyError where
  | responseNotFound
  | valueError
  | typeError
  | fileNotFoundError
  | jsonDecodeError
deriving DecidableEq

/-! ### FilePretrainedLargeModelCache (`cache.py`) -/

/-- Embeds `FilePretrainedLargeModelCache._get_cache_dir_for_query`'s
folder-name computation: the model identifier and the query identifier
joined by an underscore. -/
def cache_key (model_id : String) (q : Query) : String :=
  model_id ++ "_" ++ q.get_readable_id

/-- Reading `completion.txt` and `metadata.json` back from an entry
folder, as both `try_load_response` and the tail of
`PretrainedLargeModel.query` do: a missing file raises
`FileNotFoundError`, malformed JSON raises `json.JSONDecodeError`. -/
def readEntryFiles (fs : CacheFS) (key : String) : Except PyError Response :=
  match (entryOf fs key).completionFile with
  | none => .error .fileNotFoundError
  | some completion =>
    match (entryOf fs key).metadataFile with
    | none => .error .fileNotFoundError
    | some none => .error .jsonDecodeError
    | some (some metadata) => .ok ⟨some completion, metadata⟩

/-- Embeds `FilePretrainedLargeModelCache.try_load_response`.  The helper
`_get_cache_dir_for_query` creates the entry folder (a side effect kept in
the returned state); absence of `prompt.txt` raises `ResponseNotFound`;
otherwise the completion and metadata files are read. -/
def try_load_response (fs : CacheFS) (q : Query) (model_id : String) :
    Except PyError Response × CacheFS :=
  let key := cache_key model_id q
  let fs1 := mkdirEntry fs key
  if (entryOf fs1 key).promptFile.isSome then
    (readEntryFiles fs1 key, fs1)
  else
    (.error .responseNotFound, fs1)

/-- Embeds `FilePretrainedLargeModelCache.save`: writes `prompt.txt`, the
images when present, then `completion.txt` and `metadata.json`.  Writing a
`None` completion text raises `TypeError` after the prompt and images have
already been written. -/
def cache_save (fs : CacheFS) (q : Query) (model_id : String) (response : Response) :
    Except PyError Unit × CacheFS :=
  let key := cache_key model_id q
  let fs1 := mkdirEntry fs key
  let e1 := { entryOf fs1 key with promptFile := some q.prompt }
  let e2 := match q.imgs with
    | none => e1
    | some imgs => { e1 with imgsDir := some imgs }
  match response.text with
  | none => (.error .typeError, setEntry fs1 key e2)
  | some t =>
    (.ok (), setEntry fs1 key
      { e2 with completionFile := some t, metadataFile := some (some response.metadata) })

/-! ### PretrainedLargeModel.query (`models.py`)

The remote backend `_run_query` is a parameter (`run_query`), as is the
`use_cache_only` flag.  The returned `Nat` counts how many times
`run_query` was invoked, mirroring the call-counting backend of the
spec's testable properties. -/

/-- Embeds `PretrainedLargeModel.query`: build the Query, ensure the cache
folder, and if `prompt.txt` is absent either fail (cache-only mode) or run
the remote query and write the entry files; finally read the completion
and metadata back from disk and return the reconstructed Response. -/
def queryOp (run_query : Query → Response) (use_cache_only : Bool) (model_id : String)
    (fs : CacheFS) (prompt : String) (imgs : Option (List Img))
    (hyperparameters : Option (List (String × String))) :
    Except PyError Response × CacheFS × Nat :=
  let q : Query := ⟨prompt, imgs, hyperparameters⟩
  let key := model_id ++ "_" ++ q.get_id
  let fs1 := mkdirEntry fs key
  if (entryOf fs1 key).promptFile.isSome then
    (readEntryFiles fs1 key, fs1, 0)
  else if use_cache_only then
    (.error .valueError, fs1, 0)
  else
    let response := run_query q
    let e1 := { entryOf fs1 key with promptFile := some prompt }
    let e2 := match imgs with
      | none => e1
      | some im => { e1 with imgsDir := some im }
    match response.text with
    | none => (.error .typeError, setEntry fs1 key e2, 1)
    | some t =>
      let fs2 := setEntry fs1 key
        { e2 with completionFile := some t, metadataFile := some (some response.metadata) }
      (readEntryFiles fs2 key, fs2, 1)

/-! ### Decoders for the fingerprint token streams

These are the inverses of the serializers above; they exist only to prove
that the fingerprint encoding is injective.  Each decoder consumes a
stream and returns the decoded value together with the remaining
stream. -/

/-- Decode a string: read character tokens until terminator 1. -/
def decStr : List Nat → Option (List Char × List Nat)
  | [] => none
  | t :: rest =>
    if t = 1 then some ([], rest)
    else if 8 ≤ t then
      match decStr rest with
      | none => none
      | some (cs, r) => some (Char.ofNat (t - 8) :: cs, r)
    else none

/-- Decode an optional value from control tokens 2 and 3. -/
def decOpt {α : Type} (f : List Nat → Option (α × List Nat)) :
    List Nat → Option (Option α × List Nat)
  | [] => none
  | t :: rest =>
    if t = 2 then some (none, rest)
    else if t = 3 then
      match f rest with
      | none => none
      | some (x, r) => some (some x, r)
    else none

/-- Decode a pair by decoding the two components in order. -/
def decPair {α β : Type} (f : List Nat → Option (α × List Nat))
    (g : List Nat → Option (β × List Nat)) (l : List Nat) :
    Option ((α × β) × List Nat) :=
  match f l with
  | none => none
  | some (a, r) =>
    match g r with
    | none => none
    | some (b, r2) => some ((a, b), r2)

/-- Decode a list from control tokens 4 and 5, with explicit fuel. -/
def decListTok {α : Type} (f : List Nat → Option (α × List Nat)) :
    Nat → List Nat → Option (List α × List Nat)
  | 0, _ => none
  | _ + 1, [] => none
  | fuel + 1, t :: rest =>
    if t = 5 then some ([], rest)
    else if t = 4 then
      match f rest with
      | none => none
      | some (x, r) =>
        match decListTok f fuel r with
        | none => none
        | some (xs, r2) => some (x :: xs, r2)
    else none

/-- Numeric value of a hexadecimal digit character; a left inverse of
`Nat.digitChar` on digits below 16. -/
def hexVal (c : Char) : Nat :=
  if c.toNat ≤ 57 then c.toNat - 48 else c.toNat - 87

/-- Decode a big-endian hexadecimal digit string. -/
def hexDecode (cs : List Char) : Nat :=
  cs.foldl (fun a c => a * 16 + hexVal c) 0

/-! ### Code extraction (`code.py` / `utils.py`) -/

/-- A Boolean test that `pat` is an initial segment of `l`. -/
def beginsWith : List Char → List Char → Bool
  | [], _ => true
  | _ :: _, [] => false
  | p :: ps, c :: cs => p = c && beginsWith ps cs

/-- The index of the first occurrence of `pat` in `l`, as Python's
`str.index`; `none` when `pat` does not occur, matching Python's `in`
test. -/
def findSubstring (pat : List Char) : List Char → Option Nat
  | [] => if beginsWith pat [] then some 0 else none
  | c :: t =>
    if beginsWith pat (c :: t) then some 0
    else (findSubstring pat t).map (· + 1)

/-- The opening marker `"python"` fence tag searched by the sources. -/
def pyTag : List Char := "```python".data

/-- A bare fence marker. -/
def fenceTicks : List Char := "```".data

/-- Embeds `code.parse_python_code_from_text`: locate the first
```python marker, take everything after it up to the next fence marker or
to the end of the text; `None` when the marker is absent. -/
def parse_python_code_from_text (text : String) : Option String :=
  match findSubstring pyTag text.data with
  | none => none
  | some python_start =>
    let python_remainder := text.data.drop (python_start + pyTag.length)
    match findSubstring fenceTicks python_remainder with
    | none => some ⟨python_remainder⟩
    | some python_end => some ⟨python_remainder.take python_end⟩

/-- Embeds `utils.parse_python_code_from_llm_response`: same scan, but the
whole response is returned when the marker is absent. -/
def parse_python_code_from_llm_response (response : String) : String :=
  match findSubstring pyTag response.data with
  | none => response
  | some python_start =>
    let python_remainder := response.data.drop (python_start + pyTag.length)
    match findSubstring fenceTicks python_remainder with
    | none => ⟨python_remainder⟩
    | some python_end => ⟨python_remainder.take python_end⟩

/-! ### Reprompting (`reprompting.py`, modelled from the spec) -/

/-- A validation check: accepted (`none`) or a follow-up Query. -/
abbrev RepromptCheckFn := Query → Response → Option Query

/-- Modelled from the spec: `reprompting.py` is missing from the source
tree.  `create_reprompt_from_error_message` builds a follow-up Query whose
prompt text is a deterministic function of the original prompt, the
rejected completion text and the error description, embedding all
three. -/
def create_reprompt_from_error_message (q : Query) (response : Response)
    (error_msg : String) : Query :=
  { q with prompt :=
      q.prompt
        ++ "\n\nYour previous response was:\n" ++ response.text.getD ""
        ++ "\n\nIt failed with this error:\n" ++ error_msg
        ++ "\nPlease try again." }

/-- Evaluate a check chain in order; the first rejecting check supplies
the follow-up Query and short-circuits the rest. -/
def runRepromptChecks (checks : List RepromptCheckFn) (q : Query) (response : Response) :
    Option Query :=
  match checks with
  | [] => none
  | c :: rest =>
    match c q response with
    | some q2 => some q2
    | none => runRepromptChecks rest q response

/-- Modelled from the spec: `reprompting.py` is missing from the source
tree.  `query_with_reprompts` drives the reprompt state machine: issue the
current query, validate, and on rejection loop with the follow-up query
while attempts remain; on exhaustion the last (still-rejected) response is
returned rather than an error.  The `Nat` argument is `max_attempts`; the
fuel-zero case is never reached from `max_attempts ≥ 1`. -/
def query_with_reprompts (model : Query → Response) (checks : List RepromptCheckFn) :
    Nat → Query → Response
  | 0, q => model q
  | fuel + 1, q =>
    let response := model q
    match runRepromptChecks checks q response with
    | none => response
    | some q2 => if fuel = 0 then response else query_with_reprompts model checks fuel q2

/-- The per-attempt trace of the reprompt loop: the list of
(query, response) pairs actually issued to the model, in order. -/
def repromptTrace (model : Query → Response) (checks : List RepromptCheckFn) :
    Nat → Query → List (Query × Response)
  | 0, _ => []
  | fuel + 1, q =>
    let response := model q
    match runRepromptChecks checks q response with
    | none => [(q, response)]
    | some q2 =>
      if fuel = 0 then [(q, response)] else (q, response) :: repromptTrace model checks fuel q2

/-! ### Code synthesis (`code.py`) -/

/-- Embeds the `SynthesizedPythonFunction` dataclass (entry-point name and
source text). -/
structure SynthesizedPythonFunction where
  function_name : String
  code_str : String
deriving DecidableEq

/-- Embeds `SyntaxRepromptCheck.get_reprompt`.  Python's `ast.parse` is
the parameter `ast_parse`: `none` for a successful parse, `some detail`
for a `SyntaxError` with the given detail.  A response whose completion
text is `None` makes `parse_python_code_from_text` raise `TypeError` (the
membership test `"python" in None` fails in Python), which is surfaced as
an error rather than a follow-up. -/
def SyntaxRepromptCheck_get_reprompt (ast_parse : String → Option String)
    (q : Query) (response : Response) : Except PyError (Option Query) :=
  match response.text with
  | none => .error .typeError
  | some text =>
    match parse_python_code_from_text text with
    | none =>
      .ok (some (create_reprompt_from_error_message q response
        "No python code was found in the response."))
    | some python_code =>
      match ast_parse python_code with
      | none => .ok none
      | some e =>
        .ok (some (create_reprompt_from_error_message q response
          ("Traceback (most recent call last):\n" ++ e)))

/-- The errors `synthesize_python_function_with_llm` can raise: the
`RuntimeError` for a missing code block, or the `TypeError` bubbling out
of `parse_python_code_from_text` on a `None` completion text. -/
inductive SynthError where
  | runtimeError (msg : String)
  | typeError
deriving DecidableEq

/-- The code block extractable from a Response's completion text, if any;
a `None` completion text contains no extractable block. -/
def responseCode (response : Response) : Option String :=
  match response.text with
  | none => none
  | some t => parse_python_code_from_text t

/-- Embeds `synthesize_python_function_with_llm`: run the reprompt loop,
re-extract code from the final response, raise `RuntimeError` when no code
block is present, and otherwise wrap the extracted source text. -/
def synthesize_python_function_with_llm (function_name : String)
    (model : Query → Response) (q : Query) (reprompt_checks : List RepromptCheckFn)
    (max_attempts : Nat) : Except SynthError SynthesizedPythonFunction :=
  let response := query_with_reprompts model reprompt_checks max_attempts q
  match response.text with
  | none => .error .typeError
  | some text =>
    match parse_python_code_from_text text with
    | none => .error (.runtimeError "No python code found. Consider SyntaxRepromptCheck().")
    | some python_code => .ok ⟨function_name, python_code⟩

/-- Occurrence of `p` as a contiguous segment of `l`. -/
def occursIn {α : Type} (p l : List α) : Prop := ∃ u v, l = u ++ p ++ v

/-- Occurrence of `p` in `l` starting at index `i`. -/
def occursAt {α : Type} (p l : List α) (i : Nat) : Prop := ∃ t, l.drop i = p ++ t

/-! ### File-system lemmas -/

@[simp]
theorem entryOf_mkdirEntry_self (fs : CacheFS) (k : String) :
    entryOf (mkdirEntry fs k) k = entryOf fs k := by
  simp [entryOf, mkdirEntry]

@[simp]
theorem mkdirEntry_apply_self (fs : CacheFS) (k : String) :
    mkdirEntry fs k k = some (entryOf fs k) := by
  simp [mkdirEntry]

theorem mkdirEntry_apply_ne (fs : CacheFS) (k k2 : String) (h : k2 ≠ k) :
    mkdirEntry fs k k2 = fs k2 := by
  simp [mkdirEntry, h]

@[simp]
theorem setEntry_apply_self (fs : CacheFS) (k : String) (e : Entry) :
    setEntry fs k e k = some e := by
  simp [setEntry]

@[simp]
theorem entryOf_setEntry_self (fs : CacheFS) (k : String) (e : Entry) :
    entryOf (setEntry fs k e) k = e := by
  simp [entryOf, setEntry]

/-! ### Claims C3, C10, C4: cache-only mode and cache-lookup errors -/

/-- C3: for every client configured cache-only and every query that has no
cached entry (no `prompt.txt` under its key), `query` raises the
configuration `ValueError` immediately and the remote model is never
invoked (the remote-call count is 0). -/
theorem cache_only_miss_raises_without_remote_call
    (run_query : Query → Response) (model_id prompt : String)
    (imgs : Option (List Img)) (hyp : Option (List (String × String))) (fs : CacheFS)
    (hfresh : (entryOf fs (model_id ++ "_" ++ (Query.mk prompt imgs hyp).get_id)).promptFile
      = none) :
    queryOp run_query true model_id fs prompt imgs hyp =
      (.error .valueError,
        mkdirEntry fs (model_id ++ "_" ++ (Query.mk prompt imgs hyp).get_id), 0) := by
  simp [queryOp, hfresh]

theorem cache_only_miss_raises_without_remote_call_witness :
    queryOp (fun _ => ⟨some "ok", []⟩) true "m" (fun _ => none) "hi" none none =
      (.error .valueError,
        mkdirEntry (fun _ => none) ("m" ++ "_" ++ (Query.mk "hi" none none).get_id), 0) :=
  cache_only_miss_raises_without_remote_call (fun _ => ⟨some "ok", []⟩) "m" "hi"
    none none (fun _ => none) rfl

/-- C10: a cache-lookup miss is not effect-free: `try_load_response`
creates the per-key cache folder before raising `ResponseNotFound`, and
leaves every other key of the cache unchanged. -/
theorem try_load_miss_creates_dir_and_preserves_others
    (fs : CacheFS) (q : Query) (model_id : String)
    (hdir : fs (cache_key model_id q) = none) :
    (try_load_response fs q model_id).2 (cache_key model_id q) = some Entry.empty ∧
    (try_load_response fs q model_id).1 = .error .responseNotFound ∧
    ∀ k, k ≠ cache_key model_id q → (try_load_response fs q model_id).2 k = fs k := by
  have hentry : entryOf fs (cache_key model_id q) = Entry.empty := by
    simp [entryOf, hdir]
  refine ⟨?_, ?_, ?_⟩
  · simp [try_load_response, hentry, Entry.empty]
  · simp [try_load_response, hentry, Entry.empty]
  · intro k hk
    simp [try_load_response, hentry, Entry.empty, mkdirEntry_apply_ne fs _ k hk]

theorem try_load_miss_creates_dir_and_preserves_others_witness :
    (try_load_response (fun _ => none) (Query.mk "hi" none none) "m").2
        (cache_key "m" (Query.mk "hi" none none)) = some Entry.empty ∧
    (try_load_response (fun _ => none) (Query.mk "hi" none none) "m").1 =
      .error .responseNotFound ∧
    ∀ k, k ≠ cache_key "m" (Query.mk "hi" none none) →
      (try_load_response (fun _ => none) (Query.mk "hi" none none) "m").2 k =
        (fun _ => none : CacheFS) k :=
  try_load_miss_creates_dir_and_preserves_others (fun _ => none)
    (Query.mk "hi" none none) "m" rfl

/-- C4: `try_load_response` raises `ResponseNotFound` exactly when the
`prompt.txt` entry for the key is absent — regardless of which other entry
files exist — and when `prompt.txt` exists but `completion.txt` or
`metadata.json` is missing or malformed it surfaces a different error,
never `ResponseNotFound`. -/
theorem try_load_not_found_iff_prompt_absent
    (fs : CacheFS) (q : Query) (model_id : String) :
    ((try_load_response fs q model_id).1 = .error .responseNotFound ↔
      (entryOf fs (cache_key model_id q)).promptFile = none) ∧
    ((entryOf fs (cache_key model_id q)).promptFile ≠ none →
      ((entryOf fs (cache_key model_id q)).completionFile = none ∨
        (entryOf fs (cache_key model_id q)).metadataFile = none ∨
        (entryOf fs (cache_key model_id q)).metadataFile = some none) →
      ∃ err, (try_load_response fs q model_id).1 = .error err ∧
        err ≠ PyError.responseNotFound) := by
  constructor
  · rcases hp : (entryOf fs (cache_key model_id q)).promptFile with _ | p
    · simp [try_load_response, hp]
    · simp only [try_load_response, entryOf_mkdirEntry_self, hp, Option.isSome_some,
        if_true]
      rcases hc : (entryOf fs (cache_key model_id q)).completionFile with _ | c
      · simp [readEntryFiles, hc]
      · rcases hm : (entryOf fs (cache_key model_id q)).metadataFile with _ | (_ | m) <;>
          simp [readEntryFiles, hc, hm]
  · intro hp hbad
    rcases hp2 : (entryOf fs (cache_key model_id q)).promptFile with _ | p
    · exact absurd hp2 hp
    · simp only [try_load_response, entryOf_mkdirEntry_self, hp2, Option.isSome_some,
        if_true]
      rcases hbad with hc | hm | hm
      · exact ⟨.fileNotFoundError, by simp [readEntryFiles, hc], by simp⟩
      · rcases hc : (entryOf fs (cache_key model_id q)).completionFile with _ | c
        · exact ⟨.fileNotFoundError, by simp [readEntryFiles, hc], by simp⟩
        · exact ⟨.fileNotFoundError, by simp [readEntryFiles, hc, hm], by simp⟩
      · rcases hc : (entryOf fs (cache_key model_id q)).completionFile with _ | c
        · exact ⟨.fileNotFoundError, by simp [readEntryFiles, hc], by simp⟩
        · exact ⟨.jsonDecodeError, by simp [readEntryFiles, hc, hm], by simp⟩

theorem try_load_not_found_iff_prompt_absent_witness :
    (try_load_response (fun _ => none) (Query.mk "hi" none none) "m").1 =
      .error .responseNotFound :=
  (try_load_not_found_iff_prompt_absent (fun _ => none)
    (Query.mk "hi" none none) "m").1.mpr rfl

/-! ### Claim C1: at most one remote call per (client, query) pair -/

/-- C1: starting from a cache with no entry for the key of a fixed
(prompt, images, hyperparameters) triple, calling `query` twice on one
client performs exactly one remote call (`run_query` count 1 on the first
call, 0 on the second) and the second call returns the same cached
response the first call returned. -/
theorem query_twice_makes_one_remote_call
    (run_query : Query → Response) (model_id prompt : String)
    (imgs : Option (List Img)) (hyp : Option (List (String × String)))
    (fs : CacheFS) (t : String)
    (hfresh : (entryOf fs (model_id ++ "_" ++ (Query.mk prompt imgs hyp).get_id)).promptFile
      = none)
    (htext : (run_query (Query.mk prompt imgs hyp)).text = some t) :
    (queryOp run_query false model_id fs prompt imgs hyp).2.2 = 1 ∧
    ∃ r1, (queryOp run_query false model_id fs prompt imgs hyp).1 = .ok r1 ∧
      (queryOp run_query false model_id
        (queryOp run_query false model_id fs prompt imgs hyp).2.1 prompt imgs hyp).1
        = .ok r1 ∧
      (queryOp run_query false model_id
        (queryOp run_query false model_id fs prompt imgs hyp).2.1 prompt imgs hyp).2.2
        = 0 := by
  cases imgs <;>
    simp [queryOp, hfresh, htext, readEntryFiles]

theorem query_twice_makes_one_remote_call_witness :
    (queryOp (fun _ => ⟨some "ok", []⟩) false "m" (fun _ => none) "hi" none none).2.2 = 1 ∧
    ∃ r1,
      (queryOp (fun _ => ⟨some "ok", []⟩) false "m" (fun _ => none) "hi" none none).1
        = .ok r1 ∧
      (queryOp (fun _ => ⟨some "ok", []⟩) false "m"
        (queryOp (fun _ => ⟨some "ok", []⟩) false "m" (fun _ => none) "hi" none none).2.1
        "hi" none none).1 = .ok r1 ∧
      (queryOp (fun _ => ⟨some "ok", []⟩) false "m"
        (queryOp (fun _ => ⟨some "ok", []⟩) false "m" (fun _ => none) "hi" none none).2.1
        "hi" none none).2.2 = 0 :=
  query_twice_makes_one_remote_call (fun _ => ⟨some "ok", []⟩) "m" "hi" none none
    (fun _ => none) "ok" rfl rfl

/-! ### Claim C2: reprompt loop termination -/

theorem getLast?_cons_of_getLast? {α : Type} (l : List α) (x a : α)
    (h : l.getLast? = some a) : (x :: l).getLast? = some a := by
  cases l with
  | nil => simp at h
  | cons y ys => rw [List.getLast?_cons_cons]; exact h

theorem runRepromptChecks_isSome_of_all_reject (checks : List RepromptCheckFn)
    (hne : checks ≠ []) (hrej : ∀ c ∈ checks, ∀ q r, (c q r).isSome)
    (q : Query) (r : Response) : (runRepromptChecks checks q r).isSome := by
  match checks with
  | [] => exact absurd rfl hne
  | c :: rest =>
    have hc := hrej c (by simp) q r
    obtain ⟨q2, hq2⟩ := Option.isSome_iff_exists.mp hc
    simp [runRepromptChecks, hq2]

/-- C2: with `max_attempts = N ≥ 1` and a nonempty check chain in which
every check rejects every response, the reprompt loop issues exactly `N`
queries to the model and returns the `N`-th response — the response to the
last issued query, still rejected by the chain — without raising. -/
theorem reprompt_always_reject_makes_n_attempts
    (model : Query → Response) (checks : List RepromptCheckFn) (N : Nat) (q : Query)
    (hN : 1 ≤ N) (hne : checks ≠ [])
    (hrej : ∀ c ∈ checks, ∀ q2 r, (c q2 r).isSome) :
    (repromptTrace model checks N q).length = N ∧
    ∃ last, (repromptTrace model checks N q).getLast? = some last ∧
      last.2 = model last.1 ∧
      query_with_reprompts model checks N q = last.2 ∧
      (runRepromptChecks checks last.1 last.2).isSome := by
  induction N generalizing q with
  | zero => omega
  | succ n ih =>
    obtain ⟨q2, hq2⟩ := Option.isSome_iff_exists.mp
      (runRepromptChecks_isSome_of_all_reject checks hne hrej q (model q))
    match n with
    | 0 =>
      refine ⟨by simp [repromptTrace, hq2], (q, model q), ?_, rfl, ?_, ?_⟩
      · simp [repromptTrace, hq2]
      · simp [query_with_reprompts, hq2]
      · simp [hq2]
    | m + 1 =>
      obtain ⟨hlen, last, hlast, hresp, hrun, hrej2⟩ := ih q2 (by omega)
      have htrace : repromptTrace model checks (m + 1 + 1) q =
          (q, model q) :: repromptTrace model checks (m + 1) q2 := by
        simp [repromptTrace, hq2]
      have hq : query_with_reprompts model checks (m + 1 + 1) q =
          query_with_reprompts model checks (m + 1) q2 := by
        simp [query_with_reprompts, hq2]
      refine ⟨by simp [htrace, hlen], last, ?_, hresp, by rw [hq]; exact hrun, hrej2⟩
      rw [htrace]
      exact getLast?_cons_of_getLast? _ _ _ hlast

theorem reprompt_always_reject_makes_n_attempts_witness :
    (repromptTrace (fun _ => ⟨some "ok", []⟩) [fun q _ => some q] 3
      (Query.mk "hi" none none)).length = 3 ∧
    ∃ last, (repromptTrace (fun _ => ⟨some "ok", []⟩) [fun q _ => some q] 3
        (Query.mk "hi" none none)).getLast? = some last ∧
      last.2 = (fun _ => (⟨some "ok", []⟩ : Response)) last.1 ∧
      query_with_reprompts (fun _ => ⟨some "ok", []⟩) [fun q _ => some q] 3
        (Query.mk "hi" none none) = last.2 ∧
      (runRepromptChecks [fun q _ => some q] last.1 last.2).isSome :=
  reprompt_always_reject_makes_n_attempts (fun _ => ⟨some "ok", []⟩)
    [fun q _ => some q] 3 (Query.mk "hi" none none) (by decide) (by simp)
    (by intro c hc q2 r; simp only [List.mem_singleton] at hc; subst hc; rfl)

/-! ### Claims C7 and C9: the syntax check -/

/-- C7: for responses with string completion text, the syntax check
accepts (returns no follow-up) exactly when a python code block is
extracted and parses; when the extracted code fails to parse, the
follow-up query's text contains the parse error detail, and when no code
is found the follow-up states that no code was found. -/
theorem syntax_check_accepts_iff_code_parses
    (ast_parse : String → Option String) (q : Query) (t : String) (md : Metadata) :
    (SyntaxRepromptCheck_get_reprompt ast_parse q ⟨some t, md⟩ = .ok none ↔
      ∃ code, parse_python_code_from_text t = some code ∧ ast_parse code = none) ∧
    (∀ code e, parse_python_code_from_text t = some code → ast_parse code = some e →
      ∃ q2, SyntaxRepromptCheck_get_reprompt ast_parse q ⟨some t, md⟩ = .ok (some q2) ∧
        occursIn e.data q2.prompt.data) ∧
    (parse_python_code_from_text t = none →
      ∃ q2, SyntaxRepromptCheck_get_reprompt ast_parse q ⟨some t, md⟩ = .ok (some q2) ∧
        occursIn ("No python code was found in the response." : String).data
          q2.prompt.data) := by
  refine ⟨?_, ?_, ?_⟩
  · rcases hp : parse_python_code_from_text t with _ | code
    · simp [SyntaxRepromptCheck_get_reprompt, hp]
    · rcases ha : ast_parse code with _ | e <;>
        simp [SyntaxRepromptCheck_get_reprompt, hp, ha]
  · intro code e hp ha
    refine ⟨create_reprompt_from_error_message q ⟨some t, md⟩
      ("Traceback (most recent call last):\n" ++ e), ?_, ?_⟩
    · simp [SyntaxRepromptCheck_get_reprompt, hp, ha]
    · refine ⟨q.prompt.data ++ ("\n\nYour previous response was:\n" : String).data ++
        t.data ++ ("\n\nIt failed with this error:\n" : String).data ++
        ("Traceback (most recent call last):\n" : String).data,
        ("\nPlease try again." : String).data, ?_⟩
      simp [create_reprompt_from_error_message, String.data_append]
  · intro hp
    refine ⟨create_reprompt_from_error_message q ⟨some t, md⟩
      "No python code was found in the response.", ?_, ?_⟩
    · simp [SyntaxRepromptCheck_get_reprompt, hp]
    · refine ⟨q.prompt.data ++ ("\n\nYour previous response was:\n" : String).data ++
        t.data ++ ("\n\nIt failed with this error:\n" : String).data,
        ("\nPlease try again." : String).data, ?_⟩
      simp [create_reprompt_from_error_message, String.data_append]

theorem syntax_check_accepts_iff_code_parses_witness :
    ∃ q2, SyntaxRepromptCheck_get_reprompt (fun _ => some "invalid syntax")
        (Query.mk "write code" none none) ⟨some "```python\nX\n```", []⟩ =
        .ok (some q2) ∧
      occursIn ("invalid syntax" : String).data q2.prompt.data :=
  (syntax_check_accepts_iff_code_parses (fun _ => some "invalid syntax")
    (Query.mk "write code" none none) "```python\nX\n```" []).2.1
    "\nX\n" "invalid syntax" (by decide) rfl

/-- C9 counterexample: on a response whose completion text is `None`, the
syntax check raises `TypeError` — it does not produce a follow-up
query. -/
theorem syntax_check_none_text_raises :
    SyntaxRepromptCheck_get_reprompt (fun _ => none) (Query.mk "p" none none)
      ⟨none, []⟩ = .error .typeError := rfl

/-- C9 as amended: for every query and every response whose completion
text is `None`, the syntax check raises `TypeError` (the Python membership
test on `None` fails) instead of treating the response as containing no
code. -/
theorem syntax_check_none_text_always_raises
    (ast_parse : String → Option String) (q : Query) (md : Metadata) :
    SyntaxRepromptCheck_get_reprompt ast_parse q ⟨none, md⟩ = .error .typeError := rfl

/-! ### Claim C8: synthesize raises exactly on unextractable code -/

/-- C8: `synthesize_python_function_with_llm` raises an error exactly when
the terminal response of the reprompt loop contains no extractable fenced
code block, and otherwise returns an artifact whose source text is the
code block extracted from that terminal response. -/
theorem synthesize_fails_iff_no_code_in_terminal_response
    (function_name : String) (model : Query → Response) (q : Query)
    (checks : List RepromptCheckFn) (max_attempts : Nat) :
    ((∃ e, synthesize_python_function_with_llm function_name model q checks max_attempts
        = .error e) ↔
      responseCode (query_with_reprompts model checks max_attempts q) = none) ∧
    (∀ f, synthesize_python_function_with_llm function_name model q checks max_attempts
        = .ok f →
      responseCode (query_with_reprompts model checks max_attempts q) = some f.code_str ∧
      f.function_name = function_name) := by
  rcases ht : (query_with_reprompts model checks max_attempts q).text with _ | text
  · constructor
    · simp [synthesize_python_function_with_llm, responseCode, ht]
    · intro f hf
      simp [synthesize_python_function_with_llm, ht] at hf
  · rcases hp : parse_python_code_from_text text with _ | code
    · constructor
      · simp [synthesize_python_function_with_llm, responseCode, ht, hp]
      · intro f hf
        simp [synthesize_python_function_with_llm, ht, hp] at hf
    · constructor
      · simp [synthesize_python_function_with_llm, responseCode, ht, hp]
      · intro f hf
        simp only [synthesize_python_function_with_llm, ht, hp] at hf
        cases hf
        simp [responseCode, ht, hp]

theorem synthesize_fails_iff_no_code_in_terminal_response_witness :
    ((∃ e, synthesize_python_function_with_llm "f"
        (fun _ => ⟨some "no fences here", []⟩) (Query.mk "hi" none none) [] 1
        = .error e) ↔
      responseCode (query_with_reprompts (fun _ => ⟨some "no fences here", []⟩) [] 1
        (Query.mk "hi" none none)) = none) ∧
    (∀ f, synthesize_python_function_with_llm "f"
        (fun _ => ⟨some "no fences here", []⟩) (Query.mk "hi" none none) [] 1
        = .ok f →
      responseCode (query_with_reprompts (fun _ => ⟨some "no fences here", []⟩) [] 1
        (Query.mk "hi" none none)) = some f.code_str ∧
      f.function_name = "f") :=
  synthesize_fails_iff_no_code_in_terminal_response "f"
    (fun _ => ⟨some "no fences here", []⟩) (Query.mk "hi" none none) [] 1

/-! ### Claim C6: code extraction -/

theorem beginsWith_iff (p l : List Char) :
    beginsWith p l = true ↔ ∃ t, l = p ++ t := by
  induction p generalizing l with
  | nil => simp [beginsWith]
  | cons a ps ih =>
    cases l with
    | nil => simp [beginsWith]
    | cons c cs =>
      simp only [beginsWith, Bool.and_eq_true, decide_eq_true_eq, ih, List.cons_append]
      constructor
      · rintro ⟨rfl, t, rfl⟩
        exact ⟨t, rfl⟩
      · rintro ⟨t, h⟩
        cases h
        exact ⟨rfl, t, rfl⟩

theorem occursAt_zero (p l : List Char) : occursAt p l 0 ↔ ∃ t, l = p ++ t := by
  simp [occursAt]

theorem occursAt_cons_succ (p : List Char) (c : Char) (cs : List Char) (i : Nat) :
    occursAt p (c :: cs) (i + 1) ↔ occursAt p cs i := by
  simp [occursAt]

theorem findSubstring_none_iff (p l : List Char) :
    findSubstring p l = none ↔ ∀ i, ¬ occursAt p l i := by
  induction l with
  | nil =>
    cases hb : beginsWith p [] with
    | true =>
      obtain ⟨t, ht⟩ := (beginsWith_iff p []).mp hb
      simp only [findSubstring, hb, if_true]
      constructor
      · intro h; cases h
      · intro h; exact absurd ((occursAt_zero p []).mpr ⟨t, ht⟩) (h 0)
    | false =>
      simp only [findSubstring, hb]
      constructor
      · intro _ i hi
        obtain ⟨t, ht⟩ := hi
        simp only [List.drop_nil] at ht
        rw [(beginsWith_iff p []).mpr ⟨t, ht⟩] at hb
        cases hb
      · intro _; simp
  | cons c cs ih =>
    cases hb : beginsWith p (c :: cs) with
    | true =>
      obtain ⟨t, ht⟩ := (beginsWith_iff p (c :: cs)).mp hb
      simp only [findSubstring, hb, if_true]
      constructor
      · intro h; cases h
      · intro h; exact absurd ((occursAt_zero p (c :: cs)).mpr ⟨t, ht⟩) (h 0)
    | false =>
      simp only [findSubstring, hb, Bool.false_eq_true, if_false,
        Option.map_eq_none', ih]
      constructor
      · intro h i
        match i with
        | 0 =>
          intro h0
          obtain ⟨t, ht⟩ := (occursAt_zero p (c :: cs)).mp h0
          rw [(beginsWith_iff p (c :: cs)).mpr ⟨t, ht⟩] at hb
          cases hb
        | i + 1 => rw [occursAt_cons_succ]; exact h i
      · intro h i
        rw [← occursAt_cons_succ p c cs i]
        exact h (i + 1)

theorem findSubstring_some (p l : List Char) (i : Nat)
    (h : findSubstring p l = some i) :
    occursAt p l i ∧ ∀ j, j < i → ¬ occursAt p l j := by
  induction l generalizing i with
  | nil =>
    cases hb : beginsWith p [] with
    | true =>
      simp only [findSubstring, hb, if_true, Option.some_inj] at h
      subst h
      obtain ⟨t, ht⟩ := (beginsWith_iff p []).mp hb
      exact ⟨(occursAt_zero p []).mpr ⟨t, ht⟩, by omega⟩
    | false => simp [findSubstring, hb] at h
  | cons c cs ih =>
    cases hb : beginsWith p (c :: cs) with
    | true =>
      simp only [findSubstring, hb, if_true, Option.some_inj] at h
      subst h
      obtain ⟨t, ht⟩ := (beginsWith_iff p (c :: cs)).mp hb
      exact ⟨(occursAt_zero p (c :: cs)).mpr ⟨t, ht⟩, by omega⟩
    | false =>
      simp only [findSubstring, hb, Bool.false_eq_true, if_false,
        Option.map_eq_some'] at h
      obtain ⟨i2, hfind, hi2⟩ := h
      subst hi2
      obtain ⟨hocc, hmin⟩ := ih i2 hfind
      refine ⟨(occursAt_cons_succ p c cs i2).mpr hocc, ?_⟩
      intro j hj
      match j with
      | 0 =>
        intro h0
        obtain ⟨t, ht⟩ := (occursAt_zero p (c :: cs)).mp h0
        rw [(beginsWith_iff p (c :: cs)).mpr ⟨t, ht⟩] at hb
        cases hb
      | j + 1 =>
        rw [occursAt_cons_succ]
        exact hmin j (by omega)

theorem occursIn_iff_exists_occursAt (p l : List Char) :
    occursIn p l ↔ ∃ i, occursAt p l i := by
  constructor
  · rintro ⟨u, v, rfl⟩
    refine ⟨u.length, v, ?_⟩
    rw [List.append_assoc, List.drop_left]
  · rintro ⟨i, t, ht⟩
    refine ⟨l.take i, t, ?_⟩
    rw [List.append_assoc, ← ht, List.take_append_drop]

theorem drop_add_of_drop_eq (l : List Char) (i : Nat) (p rest : List Char)
    (h : l.drop i = p ++ rest) : l.drop (i + p.length) = rest := by
  rw [← List.drop_drop, h, List.drop_left]

theorem index_lt_length_of_occursAt (p l : List Char) (i : Nat)
    (hp : p ≠ []) (h : occursAt p l i) : i < l.length := by
  obtain ⟨t, ht⟩ := h
  by_contra hlen
  have : l.drop i = [] := List.drop_eq_nil_of_le (by omega)
  rw [this] at ht
  exact hp (List.append_eq_nil.mp ht.symm).1

theorem not_occursIn_take_of_min (p rest : List Char) (j : Nat)
    (hp : p ≠ []) (hj : occursAt p rest j) (hmin : ∀ k, k < j → ¬ occursAt p rest k) :
    ¬ occursIn p (rest.take j) := by
  rintro ⟨u, v, huv⟩
  have hjlen : j < rest.length := index_lt_length_of_occursAt p rest j hp hj
  have htk : (rest.take j).length = j := by
    rw [List.length_take]; omega
  have hulen : u.length < j := by
    have := congrArg List.length huv
    simp only [htk, List.length_append] at this
    have hplen : 0 < p.length := List.length_pos.mpr hp
    omega
  apply hmin u.length hulen
  refine ⟨v ++ rest.drop j, ?_⟩
  calc rest.drop u.length
      = (rest.take j ++ rest.drop j).drop u.length := by rw [List.take_append_drop]
    _ = (rest.take j).drop u.length ++ rest.drop j := by
        exact List.drop_append_of_le_length (by omega)
    _ = p ++ (v ++ rest.drop j) := by
        rw [huv, List.append_assoc, List.drop_left, List.append_assoc]

/-- C6 as amended: extraction returns not-found exactly when the opening
```python marker is absent; otherwise the result is the raw substring
between the end of the first marker and the next fence marker (or the end
of the text when no closing fence exists), with no trimming: extracting
from the fenced example yields the untrimmed text between the markers, and
with no closing fence the text through to the end. -/
theorem parse_python_code_extraction_spec (text : String) :
    (parse_python_code_from_text text = none ↔ ¬ occursIn pyTag text.data) ∧
    (∀ code, parse_python_code_from_text text = some code →
      ∃ pre post, text.data = pre ++ pyTag ++ code.data ++ post ∧
        (∀ j, j < pre.length → ¬ occursAt pyTag text.data j) ∧
        ¬ occursIn fenceTicks code.data ∧
        ((∃ t2, post = fenceTicks ++ t2) ∨ post = [])) ∧
    parse_python_code_from_text "```python\nX\n```" = some "\nX\n" ∧
    parse_python_code_from_text "```python\nX" = some "\nX" := by
  refine ⟨?_, ?_, by decide, by decide⟩
  · rcases h1 : findSubstring pyTag text.data with _ | i
    · have hnone : parse_python_code_from_text text = none := by
        simp [parse_python_code_from_text, h1]
      have hno : ¬ occursIn pyTag text.data := by
        rw [occursIn_iff_exists_occursAt]
        rintro ⟨k, hk⟩
        exact (findSubstring_none_iff pyTag text.data).mp h1 k hk
      simp [hnone, hno]
    · have hsome : parse_python_code_from_text text ≠ none := by
        simp only [parse_python_code_from_text, h1]
        rcases h2 : findSubstring fenceTicks (text.data.drop (i + pyTag.length))
          with _ | j <;> simp [h2]
      have hocc : occursIn pyTag text.data :=
        (occursIn_iff_exists_occursAt pyTag text.data).mpr
          ⟨i, (findSubstring_some pyTag text.data i h1).1⟩
      simp [hsome, hocc]
  · intro code hc
    rcases h1 : findSubstring pyTag text.data with _ | i
    · simp [parse_python_code_from_text, h1] at hc
    · obtain ⟨⟨t1, ht1⟩, hmin⟩ := findSubstring_some pyTag text.data i h1
      have hdrop : text.data.drop (i + pyTag.length) = t1 :=
        drop_add_of_drop_eq text.data i pyTag t1 ht1
      have hilen : i < text.data.length :=
        index_lt_length_of_occursAt pyTag text.data i (by decide) ⟨t1, ht1⟩
      have hpre : (text.data.take i).length = i := by
        rw [List.length_take]; omega
      rcases h2 : findSubstring fenceTicks t1 with _ | j
      · simp only [parse_python_code_from_text, h1, hdrop, h2, Option.some_inj] at hc
        subst hc
        refine ⟨text.data.take i, [], ?_, ?_, ?_, .inr rfl⟩
        · show text.data = text.data.take i ++ pyTag ++ t1 ++ []
          conv_lhs => rw [← List.take_append_drop i text.data]
          rw [ht1]
          simp
        · intro j hj
          exact hmin j (by omega)
        · show ¬ occursIn fenceTicks t1
          rw [occursIn_iff_exists_occursAt]
          rintro ⟨k, hk⟩
          exact (findSubstring_none_iff fenceTicks t1).mp h2 k hk
      · obtain ⟨⟨t2, ht2⟩, hmin2⟩ := findSubstring_some fenceTicks t1 j h2
        simp only [parse_python_code_from_text, h1, hdrop, h2, Option.some_inj] at hc
        subst hc
        refine ⟨text.data.take i, t1.drop j, ?_, ?_, ?_, .inl ⟨t2, ht2⟩⟩
        · show text.data = text.data.take i ++ pyTag ++ t1.take j ++ t1.drop j
          conv_lhs => rw [← List.take_append_drop i text.data]
          rw [ht1]
          conv_lhs => rw [← List.take_append_drop j t1]
          simp [List.append_assoc]
        · intro j2 hj2
          exact hmin j2 (by omega)
        · show ¬ occursIn fenceTicks (t1.take j)
          exact not_occursIn_take_of_min fenceTicks t1 j (by decide) ⟨t2, ht2⟩ hmin2

/-- C6 counterexample: extracting from the fenced example does not yield
the trimmed text claimed; the code returns the raw substring between the
markers, newlines included. -/
theorem parse_python_code_not_trimmed :
    parse_python_code_from_text "```python\nX\n```" = some "\nX\n" ∧
    parse_python_code_from_text "```python\nX\n```" ≠ some "X" ∧
    parse_python_code_from_text "```python\nX" = some "\nX" ∧
    parse_python_code_from_text "```python\nX" ≠ some "X" := by
  refine ⟨by decide, by decide, by decide, by decide⟩

theorem parse_python_code_extraction_spec_witness :
    ∃ pre post,
      ("pre ```python\nX\n``` post" : String).data =
        pre ++ pyTag ++ ("\nX\n" : String).data ++ post ∧
      (∀ j, j < pre.length →
        ¬ occursAt pyTag ("pre ```python\nX\n``` post" : String).data j) ∧
      ¬ occursIn fenceTicks ("\nX\n" : String).data ∧
      ((∃ t2, post = fenceTicks ++ t2) ∨ post = []) :=
  (parse_python_code_extraction_spec "pre ```python\nX\n``` post").2.1 "\nX\n" (by decide)

/-! ### Claim C5: key derivation

The chain of lemmas below shows the fingerprint encoding is injective, by
running the decoders over the serialized token streams. -/

theorem char_toNat_lt (c : Char) : c.toNat < 1114112 := by
  rcases c.valid with h | ⟨_, h2⟩
  · exact Nat.lt_trans h (by norm_num)
  · exact h2

theorem decStr_map_charTok (cs : List Char) (k : List Nat) :
    decStr (cs.map charTok ++ ([1] ++ k)) = some (cs, k) := by
  induction cs with
  | nil => simp [decStr]
  | cons c cs ih =>
    have h1 : charTok c ≠ 1 := by simp only [charTok]; omega
    have h8 : 8 ≤ charTok c := by simp only [charTok]; omega
    have hc : Char.ofNat (charTok c - 8) = c := by
      have : charTok c - 8 = c.toNat := by simp only [charTok]; omega
      rw [this, Char.ofNat_toNat]
    have ih2 : decStr (List.map charTok cs ++ 1 :: k) = some (cs, k) := by
      simpa using ih
    simp [decStr, h1, h8, ih2, hc]

/-- The string decoder reassembled at `String` type. -/
def decStrS (l : List Nat) : Option (String × List Nat) :=
  match decStr l with
  | none => none
  | some (cs, r) => some (⟨cs⟩, r)

theorem decStrS_encStr (s : String) (k : List Nat) :
    decStrS (encStr s ++ k) = some (s, k) := by
  have h : decStr (List.map charTok s.data ++ 1 :: k) = some (s.data, k) := by
    simpa using decStr_map_charTok s.data k
  simp only [encStr, List.append_assoc]
  simp [decStrS, h]

theorem decOpt_encOpt {α : Type} (enc : α → List Nat)
    (f : List Nat → Option (α × List Nat)) (o : Option α) (k : List Nat)
    (hf : ∀ x, o = some x → f (enc x ++ k) = some (x, k)) :
    decOpt f (encOpt enc o ++ k) = some (o, k) := by
  cases o with
  | none => simp [encOpt, decOpt]
  | some x => simp [encOpt, decOpt, hf x rfl]

theorem decPair_encPairTok {α β : Type} (ef : α → List Nat) (eg : β → List Nat)
    (f : List Nat → Option (α × List Nat)) (g : List Nat → Option (β × List Nat))
    (hf : ∀ x k, f (ef x ++ k) = some (x, k)) (hg : ∀ y k, g (eg y ++ k) = some (y, k))
    (p : α × β) (k : List Nat) :
    decPair f g (encPairTok ef eg p ++ k) = some (p, k) := by
  cases p with
  | mk a b =>
    simp only [encPairTok, List.append_assoc]
    simp [decPair, hf, hg]

theorem decListTok_encListTok {α : Type} (enc : α → List Nat)
    (f : List Nat → Option (α × List Nat))
    (hf : ∀ x k, f (enc x ++ k) = some (x, k)) (l : List α) (fuel : Nat) (k : List Nat)
    (hfuel : l.length < fuel) :
    decListTok f fuel (encListTok enc l ++ k) = some (l, k) := by
  induction l generalizing fuel k with
  | nil =>
    match fuel, hfuel with
    | fl + 1, _ => simp [encListTok, decListTok]
  | cons x xs ih =>
    match fuel, hfuel with
    | fl + 1, hfuel =>
      have hxs : xs.length < fl := by
        simp only [List.length_cons] at hfuel
        omega
      have ih2 := ih fl k hxs
      simp [encListTok, decListTok, List.append_assoc, hf, ih2]

theorem string_data_inj {s t : String} (h : s.data = t.data) : s = t := by
  cases s
  cases t
  simp_all

theorem queryTokens_inj (q1 q2 : Query) (h : queryTokens q1 = queryTokens q2) :
    q1 = q2 := by
  have hd1 : ∀ q : Query, decStrS (queryTokens q) =
      some (q.prompt, encOpt (encListTok encStr) q.imgs ++
        encOpt (encListTok (encPairTok encStr encStr)) q.hyperparameters) := by
    intro q
    rw [queryTokens, List.append_assoc]
    exact decStrS_encStr q.prompt _
  have hstep1 := (hd1 q1).symm.trans ((congrArg decStrS h).trans (hd1 q2))
  rw [Option.some_inj, Prod.mk.injEq] at hstep1
  obtain ⟨hprompt, hrest⟩ := hstep1
  have himgs :
      decOpt (decListTok decStrS
          ((q1.imgs.getD []).length + (q2.imgs.getD []).length + 1))
        (encOpt (encListTok encStr) q1.imgs ++
          encOpt (encListTok (encPairTok encStr encStr)) q1.hyperparameters) =
      some (q1.imgs, encOpt (encListTok (encPairTok encStr encStr)) q1.hyperparameters)
      := by
    apply decOpt_encOpt
    intro xs hxs
    apply decListTok_encListTok encStr decStrS decStrS_encStr
    simp [hxs]
    omega
  have himgs2 :
      decOpt (decListTok decStrS
          ((q1.imgs.getD []).length + (q2.imgs.getD []).length + 1))
        (encOpt (encListTok encStr) q2.imgs ++
          encOpt (encListTok (encPairTok encStr encStr)) q2.hyperparameters) =
      some (q2.imgs, encOpt (encListTok (encPairTok encStr encStr)) q2.hyperparameters)
      := by
    apply decOpt_encOpt
    intro xs hxs
    apply decListTok_encListTok encStr decStrS decStrS_encStr
    simp [hxs]
    omega
  have hstep2 := himgs.symm.trans ((congrArg _ hrest).trans himgs2)
  rw [Option.some_inj, Prod.mk.injEq] at hstep2
  obtain ⟨himgseq, hresth⟩ := hstep2
  -- decode the hyperparameters component
  have hpair : ∀ (p : String × String) (k : List Nat),
      decPair decStrS decStrS (encPairTok encStr encStr p ++ k) = some (p, k) :=
    fun p k => decPair_encPairTok encStr encStr decStrS decStrS
      (fun x k2 => decStrS_encStr x k2) (fun y k2 => decStrS_encStr y k2) p k
  have hhyp :
      decOpt (decListTok (decPair decStrS decStrS)
          ((q1.hyperparameters.getD []).length + (q2.hyperparameters.getD []).length + 1))
        (encOpt (encListTok (encPairTok encStr encStr)) q1.hyperparameters ++ []) =
      some (q1.hyperparameters, []) := by
    apply decOpt_encOpt
    intro xs hxs
    apply decListTok_encListTok _ _ hpair
    simp [hxs]
    omega
  have hhyp2 :
      decOpt (decListTok (decPair decStrS decStrS)
          ((q1.hyperparameters.getD []).length + (q2.hyperparameters.getD []).length + 1))
        (encOpt (encListTok (encPairTok encStr encStr)) q2.hyperparameters ++ []) =
      some (q2.hyperparameters, []) := by
    apply decOpt_encOpt
    intro xs hxs
    apply decListTok_encListTok _ _ hpair
    simp [hxs]
    omega
  have hstep3 := hhyp.symm.trans ((congrArg _ (by rw [hresth])).trans hhyp2)
  rw [Option.some_inj, Prod.mk.injEq] at hstep3
  cases q1
  cases q2
  simp only at hprompt himgseq hstep3
  simp [hprompt, himgseq, hstep3.1]

theorem encStr_tok_bound (s : String) : ∀ t ∈ encStr s, t + 1 < tokenBase := by
  intro t ht
  simp only [encStr, List.mem_append, List.mem_map, List.mem_singleton] at ht
  rcases ht with ⟨c, _, rfl⟩ | rfl
  · have := char_toNat_lt c
    simp only [charTok, tokenBase]
    omega
  · simp only [tokenBase]
    omega

theorem encOpt_tok_bound {α : Type} (enc : α → List Nat)
    (henc : ∀ x, ∀ t ∈ enc x, t + 1 < tokenBase) (o : Option α) :
    ∀ t ∈ encOpt enc o, t + 1 < tokenBase := by
  intro t ht
  cases o with
  | none =>
    simp only [encOpt, List.mem_singleton] at ht
    simp only [ht, tokenBase]
    omega
  | some x =>
    simp only [encOpt, List.mem_cons] at ht
    rcases ht with rfl | ht
    · simp only [tokenBase]; omega
    · exact henc x t ht

theorem encListTok_tok_bound {α : Type} (enc : α → List Nat)
    (henc : ∀ x, ∀ t ∈ enc x, t + 1 < tokenBase) (l : List α) :
    ∀ t ∈ encListTok enc l, t + 1 < tokenBase := by
  induction l with
  | nil =>
    intro t ht
    simp only [encListTok, List.mem_singleton] at ht
    simp only [ht, tokenBase]
    omega
  | cons x xs ih =>
    intro t ht
    simp only [encListTok, List.mem_cons, List.mem_append] at ht
    rcases ht with rfl | ⟨he | htail⟩
    · simp only [tokenBase]; omega
    · exact henc x t he
    · exact ih t htail

theorem encPairTok_tok_bound (p : String × String) :
    ∀ t ∈ encPairTok encStr encStr p, t + 1 < tokenBase := by
  intro t ht
  simp only [encPairTok, List.mem_append] at ht
  rcases ht with h | h
  · exact encStr_tok_bound p.1 t h
  · exact encStr_tok_bound p.2 t h

theorem queryTokens_tok_bound (q : Query) :
    ∀ t ∈ queryTokens q, t + 1 < tokenBase := by
  intro t ht
  simp only [queryTokens, List.mem_append] at ht
  rcases ht with (h | h) | h
  · exact encStr_tok_bound q.prompt t h
  · exact encOpt_tok_bound _ (fun x => encListTok_tok_bound encStr encStr_tok_bound x)
      q.imgs t h
  · exact encOpt_tok_bound _
      (fun x => encListTok_tok_bound _ (fun p => encPairTok_tok_bound p) x)
      q.hyperparameters t h

theorem encTok_inj (l1 l2 : List Nat)
    (h1 : ∀ t ∈ l1, t + 1 < tokenBase) (h2 : ∀ t ∈ l2, t + 1 < tokenBase)
    (h : encTok l1 = encTok l2) : l1 = l2 := by
  induction l1 generalizing l2 with
  | nil =>
    cases l2 with
    | nil => rfl
    | cons b bs =>
      simp only [encTok, tokenBase] at h
      omega
  | cons a as ih =>
    cases l2 with
    | nil =>
      simp only [encTok, tokenBase] at h
      omega
    | cons b bs =>
      have ha := h1 a (List.mem_cons_self a as)
      have hb := h2 b (List.mem_cons_self b bs)
      simp only [encTok, tokenBase] at h ha hb
      have hab : a = b ∧ encTok as = encTok bs := by
        constructor <;> omega
      rw [hab.1, ih bs (fun t ht => h1 t (List.mem_cons_of_mem a ht))
        (fun t ht => h2 t (List.mem_cons_of_mem b ht)) hab.2]

theorem fingerprint_inj (q1 q2 : Query) (h : fingerprint q1 = fingerprint q2) :
    q1 = q2 :=
  queryTokens_inj q1 q2
    (encTok_inj (queryTokens q1) (queryTokens q2)
      (queryTokens_tok_bound q1) (queryTokens_tok_bound q2) h)

theorem hexVal_digitChar : ∀ d, d < 16 → hexVal (Nat.digitChar d) = d := by decide

theorem natToHexAux_decode (n : Nat) :
    ∀ fuel ds, n < fuel →
      (natToHexAux fuel n ds).foldl (fun a c => a * 16 + hexVal c) 0 =
      ds.foldl (fun a c => a * 16 + hexVal c) n := by
  induction n using Nat.strong_induction_on with
  | _ n ih =>
    intro fuel ds hfuel
    match fuel, hfuel with
    | fl + 1, hfuel =>
      simp only [natToHexAux]
      by_cases h0 : n / 16 = 0
      · rw [if_pos h0]
        have hn16 : n < 16 := by omega
        simp only [List.foldl_cons]
        rw [hexVal_digitChar (n % 16) (Nat.mod_lt n (by norm_num))]
        rw [Nat.mod_eq_of_lt hn16]
        simp
      · rw [if_neg h0]
        have hdivlt : n / 16 < n := Nat.div_lt_self (by omega) (by norm_num)
        rw [ih (n / 16) hdivlt fl (Nat.digitChar (n % 16) :: ds) (by omega)]
        simp only [List.foldl_cons]
        rw [hexVal_digitChar (n % 16) (Nat.mod_lt n (by omega))]
        congr 1
        omega

theorem hexDecode_natToHex (n : Nat) : hexDecode (natToHex n).data = n := by
  have h := natToHexAux_decode n (n + 1) [] (by omega)
  simpa [natToHex, hexDecode] using h

theorem natToHex_inj (m n : Nat) (h : natToHex m = natToHex n) : m = n := by
  have h2 := congrArg (fun s : String => hexDecode s.data) h
  simpa [hexDecode_natToHex] using h2

/-- C5: the storage key used for both store and lookup (the cache folder
name) is the model identifier joined with the query identifier — the
truncated prompt excerpt and the fingerprint, not the raw prompt text —
so two queries with identical prompt text (and image attachments held
fixed or not) but different hyperparameters map to distinct keys. -/
theorem storage_keys_distinct_for_distinct_hyperparameters
    (model_id : String) (q1 q2 : Query)
    (hp : q1.prompt = q2.prompt) (hh : q1.hyperparameters ≠ q2.hyperparameters) :
    cache_key model_id q1 ≠ cache_key model_id q2 := by
  intro hk
  apply hh
  have hdata := congrArg String.data hk
  simp only [cache_key, Query.get_readable_id, String.data_append, hp,
    List.append_assoc] at hdata
  have hhex : (natToHex (fingerprint q1)).data = (natToHex (fingerprint q2)).data := by
    have s1 := List.append_cancel_left hdata
    have s2 := List.append_cancel_left s1
    have s3 := List.append_cancel_left s2
    exact List.append_cancel_left s3
  have hfp : fingerprint q1 = fingerprint q2 :=
    natToHex_inj _ _ (string_data_inj hhex)
  rw [fingerprint_inj q1 q2 hfp]

theorem storage_keys_distinct_for_distinct_hyperparameters_witness :
    cache_key "m" (Query.mk "hi" none none) ≠
      cache_key "m" (Query.mk "hi" none (some [("seed", "1")])) :=
  storage_keys_distinct_for_distinct_hyperparameters "m"
    (Query.mk "hi" none none) (Query.mk "hi" none (some [("seed", "1")]))
    rfl (by decide)

end PrplLlmUtils
